import Mathlib

/-!
Verification of the commitgen CLI against its natural-language specification.

The TypeScript sources are shallowly embedded: strings are `List Char`
values (with `String` wrappers mirroring the original signatures), the
JavaScript number arithmetic of the similarity ranker is embedded in `ℚ`,
and effectful collaborators (git subprocesses, model providers, the
interactive prompt widget) are abstracted as explicit oracles or input
parameters.  Each claim is settled by a theorem about these definitions.
-/

/-! ## Character classes and JS-style string helpers -/

/-- The whitespace characters removed by JavaScript `String.prototype.trim`
(ASCII whitespace plus NBSP and the BOM). -/
def isJsSpace (c : Char) : Bool :=
  c = ' ' || c = '\t' || c = '\n' || c = '\r' ||
  c = Char.ofNat 11 || c = Char.ofNat 12 || c = Char.ofNat 160 || c = Char.ofNat 65279

/-- ASCII letter, the class `[a-z]` with the `i` flag. -/
def isAsciiLetter (c : Char) : Bool :=
  ('a' ≤ c && c ≤ 'z') || ('A' ≤ c && c ≤ 'Z')

/-- Lower-case ASCII letter, the class `[a-z]`. -/
def isLowerAz (c : Char) : Bool := 'a' ≤ c && c ≤ 'z'

/-- The regex class `\w`, i.e. `[A-Za-z0-9_]`. -/
def isWordChar (c : Char) : Bool :=
  ('a' ≤ c && c ≤ 'z') || ('A' ≤ c && c ≤ 'Z') || ('0' ≤ c && c ≤ '9') || c = '_'

/-- The regex class `[A-Z_]`. -/
def isUpperUnd (c : Char) : Bool := ('A' ≤ c && c ≤ 'Z') || c = '_'

/-- Boolean test that `p` is a leading segment of `l`
(JavaScript `String.prototype.startsWith`). -/
def headsWith : List Char → List Char → Bool
  | [], _ => true
  | _ :: _, [] => false
  | p :: ps, c :: cs => p = c && headsWith ps cs

/-- Boolean test that `p` is a trailing segment of `l`
(JavaScript `String.prototype.endsWith`). -/
def tailsWith (p l : List Char) : Bool := headsWith p.reverse l.reverse

/-- JavaScript `String.prototype.trim`. -/
def jsTrim (l : List Char) : List Char :=
  ((l.dropWhile isJsSpace).reverse.dropWhile isJsSpace).reverse

/-- Splitting on newlines, JavaScript `s.split('\n')`: the list of
newline-separated segments, including empty ones. -/
def splitNl : List Char → List (List Char)
  | [] => [[]]
  | c :: rest =>
    if c = '\n' then [] :: splitNl rest
    else
      match splitNl rest with
      | [] => [[c]]
      | h :: t => (c :: h) :: t

/-- Joining with newlines, JavaScript `lines.join('\n')`. -/
def joinNl : List (List Char) → List Char
  | [] => []
  | [l] => l
  | l :: l' :: ls => l ++ '\n' :: joinNl (l' :: ls)

/-- Joining with a comma and a space, JavaScript `parts.join(', ')`. -/
def joinCommaSpace : List (List Char) → List Char
  | [] => []
  | [l] => l
  | l :: l' :: ls => l ++ ',' :: ' ' :: joinCommaSpace (l' :: ls)

/-- Splitting on commas, JavaScript `s.split(',')`. -/
def splitComma : List Char → List (List Char)
  | [] => [[]]
  | c :: rest =>
    if c = ',' then [] :: splitComma rest
    else
      match splitComma rest with
      | [] => [[c]]
      | h :: t => (c :: h) :: t

/-- Lower-casing a character as JavaScript `toLowerCase` does on the
ASCII range (the sources only compare ASCII identifiers and messages). -/
def jsToLower (c : Char) : Char := c.toLower

/-- Substring containment, JavaScript `String.prototype.includes`. -/
def containsSub (hay needle : List Char) : Bool := decide (needle <:+: hay)

/-! ## `src/utils/validators.ts`, class `ResponseValidator`

The function `parseCommitMessage` trims the model reply, strips a leading
fenced code-block opener (a regex matching three backticks, then lower-case
letters, then an optional newline, anchored at the start) and a trailing
closer (an optional newline then three backticks, anchored at the end),
strips one layer of matching surrounding quotes,
keeps only the first line, and validates; invalid messages are sanitized
(drop a single non-alphabetic leading character, then trim) and fall back
to a fixed string when still invalid. -/

/-- The three backtick characters of a fenced code block marker. -/
def fenceChars : List Char := "```".toList

/-- Removal of a leading markdown code fence, the first `replace` of
`parseCommitMessage`.  The regex is anchored at the start; after the three
literal backticks it greedily consumes lower-case letters and then at most
one newline (the character classes involved are disjoint, so greedy
matching is exact). -/
def stripLeadingFence (l : List Char) : List Char :=
  if headsWith fenceChars l then
    let r := (l.drop 3).dropWhile isLowerAz
    match r with
    | '\n' :: r' => r'
    | _ => r
  else l

/-- Removal of a trailing markdown code fence, the second `replace` of
`parseCommitMessage`: remove three trailing backticks together with at
most one newline directly before them. -/
def stripTrailingFence (l : List Char) : List Char :=
  if tailsWith ('\n' :: fenceChars) l then l.dropLast.dropLast.dropLast.dropLast
  else if tailsWith fenceChars l then l.dropLast.dropLast.dropLast
  else l

/-- The single-quote character. -/
def squote : Char := Char.ofNat 39

/-- Strip one layer of surrounding matching quotes (`message.slice(1, -1)`
when the message both starts and ends with a double quote or with a
single quote). -/
def stripQuotes (l : List Char) : List Char :=
  if (headsWith ['"'] l && tailsWith ['"'] l) ||
     (headsWith [squote] l && tailsWith [squote] l) then
    (l.drop 1).dropLast
  else l

/-- First line of a message, JavaScript `message.split('\n')[0]`. -/
def firstLine (l : List Char) : List Char := l.takeWhile (· ≠ '\n')

/-- Validation predicate `ResponseValidator.isValidCommitMessage`: length
strictly greater than 3, strictly less than 100, and no embedded newline. -/
def isValidCommitMessage (l : List Char) : Bool :=
  decide (3 < l.length) && decide (l.length < 100) && !l.contains '\n'

/-- The fixed fallback commit message. -/
def fallbackMessage : List Char := "chore: update code".toList

/-- Sanitizer first step: drop a single leading character when it is not
an ASCII letter (the `replace` with the case-insensitive class of
non-letters, unanchored to `g`, so one character at most). -/
def dropLeadingNonAlpha : List Char → List Char
  | [] => []
  | c :: t => if isAsciiLetter c then c :: t else t

/-- Sanitizer `ResponseValidator.sanitizeMessage`. -/
def sanitizeMessage (l : List Char) : List Char :=
  let m := jsTrim (dropLeadingNonAlpha l)
  if !isValidCommitMessage m then fallbackMessage else m

/-- The cleaning stage of `ResponseValidator.parseCommitMessage`:
trim, strip code fences, strip quotes, take the first line. -/
def cleanFirstLine (l : List Char) : List Char :=
  firstLine (stripQuotes (stripTrailingFence (stripLeadingFence (jsTrim l))))

/-- Parser `ResponseValidator.parseCommitMessage` on character lists. -/
def parseCommitMessageL (response : List Char) : List Char :=
  let message := cleanFirstLine response
  if !isValidCommitMessage message then sanitizeMessage message
  else message

/-- Parser entry point, `ResponseValidator.parseCommitMessage` of
`src/utils/validators.ts`, at the `String` interface. -/
def ResponseValidator.parseCommitMessage (response : String) : String :=
  ⟨parseCommitMessageL response.toList⟩

/-! ## Lemmas about the response parser -/

theorem headsWith_iff : ∀ p l : List Char, headsWith p l = true ↔ p <+: l := by
  intro p
  induction p with
  | nil => intro l; simp [headsWith]
  | cons a ps ih =>
    intro l
    cases l with
    | nil => simp [headsWith]
    | cons c cs =>
      simp only [headsWith, Bool.and_eq_true, decide_eq_true_eq, ih cs,
        List.cons_prefix_cons]

theorem headsWith_append_left {p q l : List Char}
    (h : headsWith (p ++ q) l = true) : headsWith p l = true := by
  rw [headsWith_iff] at h ⊢
  exact (List.prefix_append p q).trans h

theorem tailsWith_cons {c : Char} {p l : List Char}
    (h : tailsWith (c :: p) l = true) : tailsWith p l = true := by
  unfold tailsWith at h ⊢
  rw [List.reverse_cons] at h
  exact headsWith_append_left h

theorem takeWhile_ne_of_not_mem {c : Char} {l : List Char} (h : c ∉ l) :
    l.takeWhile (· ≠ c) = l := by
  induction l with
  | nil => rfl
  | cons a t ih =>
    simp only [List.mem_cons, not_or] at h
    have ha : a ≠ c := fun hc => h.1 hc.symm
    rw [List.takeWhile_cons, if_pos (by simp [ha]), ih h.2]

theorem isValid_spec {m : List Char} (h : isValidCommitMessage m = true) :
    3 < m.length ∧ m.length < 100 ∧ '\n' ∉ m := by
  simp only [isValidCommitMessage, Bool.and_eq_true, decide_eq_true_eq,
    Bool.not_eq_true', List.contains, List.elem_eq_mem, decide_eq_false_iff_not] at h
  exact ⟨h.1.1, h.1.2, h.2⟩

/-- The parser output always passes `isValidCommitMessage`. -/
theorem isValid_parseCommitMessageL (l : List Char) :
    isValidCommitMessage (parseCommitMessageL l) = true := by
  rw [parseCommitMessageL]
  split
  · rw [sanitizeMessage]
    split
    · decide
    · rename_i h; simpa using h
  · rename_i h; simpa using h

theorem stripLeadingFence_id {l : List Char}
    (h : headsWith fenceChars l = false) : stripLeadingFence l = l := by
  unfold stripLeadingFence
  rw [h]
  simp

theorem stripTrailingFence_id {l : List Char}
    (h1 : tailsWith ('\n' :: fenceChars) l = false)
    (h2 : tailsWith fenceChars l = false) : stripTrailingFence l = l := by
  unfold stripTrailingFence
  rw [h1, h2]
  simp

theorem stripQuotes_id {l : List Char}
    (h : ((headsWith ['"'] l && tailsWith ['"'] l) ||
          (headsWith [squote] l && tailsWith [squote] l)) = false) :
    stripQuotes l = l := by
  unfold stripQuotes
  rw [h]
  simp

/-- On a message that is already valid and clean (trim-stable, no leading
or trailing fence, not quote-wrapped), the parser is the identity. -/
theorem parseCommitMessageL_eq_self {m : List Char}
    (hvalid : isValidCommitMessage m = true)
    (htrim : jsTrim m = m)
    (hlead : headsWith fenceChars m = false)
    (htrail : tailsWith fenceChars m = false)
    (hq : ((headsWith ['"'] m && tailsWith ['"'] m)
        || (headsWith [squote] m && tailsWith [squote] m)) = false) :
    parseCommitMessageL m = m := by
  have htrail' : tailsWith ('\n' :: fenceChars) m = false := by
    cases h : tailsWith ('\n' :: fenceChars) m with
    | false => rfl
    | true => exact absurd (tailsWith_cons h) (by rw [htrail]; simp)
  have hclean : cleanFirstLine m = m := by
    rw [cleanFirstLine, htrim, stripLeadingFence_id hlead,
      stripTrailingFence_id htrail' htrail, stripQuotes_id hq, firstLine,
      takeWhile_ne_of_not_mem (isValid_spec hvalid).2.2]
  rw [parseCommitMessageL, hclean, hvalid]
  simp

/-! ## C2: output bounds and fallback of `parseCommitMessage` -/

/-- C2 (counterexample): the claim says the parsed message's length is
strictly between 3 and 99, but the validator accepts any length up to 99
(`message.length < 100`), so a valid 99-character reply passes through
unchanged and the parsed message has length exactly 99. -/
theorem c2_counterexample :
    (ResponseValidator.parseCommitMessage (String.mk (List.replicate 99 'a'))).length = 99 ∧
    ¬ (ResponseValidator.parseCommitMessage (String.mk (List.replicate 99 'a'))).length < 99 := by
  constructor
  · decide
  · decide

/-- C2 (amended): for every input string, `parseCommitMessage` returns a
message whose length is strictly between 3 and 100 characters (that is,
between 4 and 99 inclusive) and which contains no embedded line break;
if the cleaned first line is invalid it strips a single non-alphabetic
leading character, trims, and re-validates, and if still invalid it
returns exactly the fallback string "chore: update code". -/
theorem c2_parseCommitMessage_spec (s : String) :
    3 < (ResponseValidator.parseCommitMessage s).length ∧
    (ResponseValidator.parseCommitMessage s).length < 100 ∧
    '\n' ∉ (ResponseValidator.parseCommitMessage s).toList ∧
    (isValidCommitMessage (cleanFirstLine s.toList) = false →
      isValidCommitMessage (jsTrim (dropLeadingNonAlpha (cleanFirstLine s.toList))) = false →
      ResponseValidator.parseCommitMessage s = "chore: update code") := by
  have hv := isValid_spec (isValid_parseCommitMessageL s.toList)
  refine ⟨hv.1, hv.2.1, hv.2.2, ?_⟩
  intro h1 h2
  show String.mk (parseCommitMessageL s.toList) = _
  rw [parseCommitMessageL]
  simp only [h1, Bool.not_false, if_pos]
  rw [sanitizeMessage]
  simp only [h2, Bool.not_false, if_pos]
  rfl

/-- C2 (witness): at the empty input both validation stages fail and the
fallback is returned. -/
theorem c2_witness :
    isValidCommitMessage (cleanFirstLine "".toList) = false ∧
    isValidCommitMessage (jsTrim (dropLeadingNonAlpha (cleanFirstLine "".toList))) = false ∧
    ResponseValidator.parseCommitMessage "" = "chore: update code" :=
  ⟨by decide, by decide, (c2_parseCommitMessage_spec "").2.2.2 (by decide) (by decide)⟩

/-! ## C3: idempotence of `parseCommitMessage` -/

theorem toList_mk (l : List Char) : (String.mk l).toList = l := rfl

/-- A message counts as already clean when it is trim-stable, does not
begin or end with a backtick fence, and is not wrapped in matching
quotes — i.e. none of the parser's cleanup stages can fire on it. -/
def isCleanMessage (l : List Char) : Bool :=
  decide (jsTrim l = l) && !headsWith fenceChars l && !tailsWith fenceChars l &&
  !((headsWith ['"'] l && tailsWith ['"'] l) ||
    (headsWith [squote] l && tailsWith [squote] l))

set_option maxHeartbeats 2000000 in
/-- C3 (counterexample): `parseCommitMessage` is not idempotent.  On the
fenced reply consisting of three backticks, a newline, the text
"  hello  " (with two spaces on each side), a newline and three closing
backticks, the first parse strips the fences but keeps the surrounding
whitespace of the exposed line, returning "  hello  " (length 9, valid);
the second parse trims that whitespace and returns "hello". -/
theorem c3_counterexample :
    ResponseValidator.parseCommitMessage
        (ResponseValidator.parseCommitMessage "```\n  hello  \n```") ≠
      ResponseValidator.parseCommitMessage "```\n  hello  \n```" := by
  decide

/-- C3 (amended): `parseCommitMessage` is idempotent on every input whose
parse result is already clean (no leading or trailing whitespace, no
fence at either end, not quote-wrapped): re-running the parser on such an
output yields the same string.  In general a parse result can carry
leading or trailing whitespace exposed by fence or quote stripping, and a
second run trims it. -/
theorem c3_parse_idempotent_on_clean (s : String)
    (h : isCleanMessage (ResponseValidator.parseCommitMessage s).toList = true) :
    ResponseValidator.parseCommitMessage (ResponseValidator.parseCommitMessage s) =
      ResponseValidator.parseCommitMessage s := by
  unfold ResponseValidator.parseCommitMessage at h ⊢
  rw [toList_mk] at h ⊢
  simp only [isCleanMessage, Bool.and_eq_true, decide_eq_true_eq,
    Bool.not_eq_true'] at h
  rw [parseCommitMessageL_eq_self (isValid_parseCommitMessageL s.toList)
    h.1.1.1 h.1.1.2 h.1.2 h.2]

/-- C3 (witness): a plain conventional-commit reply parses to itself and
satisfies the cleanliness condition, so a second parse is the identity. -/
theorem c3_witness :
    isCleanMessage (ResponseValidator.parseCommitMessage "fix: add tests").toList = true ∧
    ResponseValidator.parseCommitMessage
        (ResponseValidator.parseCommitMessage "fix: add tests") =
      ResponseValidator.parseCommitMessage "fix: add tests" :=
  ⟨by decide, c3_parse_idempotent_on_clean "fix: add tests" (by decide)⟩

/-! ## `src/workflows/workflowRunner.ts`: the workflow engine

`executeWorkflow` runs the configured steps strictly in order.  Each step
(`executeStep`) either returns a boolean continue signal or throws; the
engine stops at the first `false` (recording the step as `failedStep`)
and catches exceptions around the whole loop (recording only the error
message).  The effect of an individual step — git subprocesses, checks,
prompts — is abstracted as an oracle from steps to outcomes. -/

/-- The closed enumeration `WorkflowStep` of `src/workflows/types.ts`. -/
inductive WorkflowStep where
  | stageAll | stagePrompt
  | checkAll | checkBuild | checkLint | checkTest | checkTypecheck
  | commitAuto | commitReview | commitInteractive
  | push | pushPrompt | createPr
  deriving DecidableEq, Repr

/-- String value of a workflow step, as interpolated into messages. -/
def WorkflowStep.label : WorkflowStep → String
  | .stageAll => "stage:all"
  | .stagePrompt => "stage:prompt"
  | .checkAll => "check:all"
  | .checkBuild => "check:build"
  | .checkLint => "check:lint"
  | .checkTest => "check:test"
  | .checkTypecheck => "check:typecheck"
  | .commitAuto => "commit:auto"
  | .commitReview => "commit:review"
  | .commitInteractive => "commit:interactive"
  | .push => "push"
  | .pushPrompt => "push:prompt"
  | .createPr => "create-pr"

/-- Outcome of one `executeStep` call: a boolean continue signal, or a
thrown exception carrying a message. -/
inductive StepOutcome where
  | ok (b : Bool)
  | exn (msg : String)
  deriving DecidableEq, Repr

/-- Result record `WorkflowResult` of `src/workflows/types.ts`. -/
structure WorkflowResult where
  success : Bool
  stepsCompleted : Nat
  totalSteps : Nat
  failedStep : Option WorkflowStep := none
  error : Option String := none
  deriving DecidableEq, Repr

/-- Step loop of `WorkflowRunner.executeWorkflow`: `stepsCompleted` counts
the steps so far that returned `true`; a `false` stops with `failedStep`
set; a thrown exception is caught by the surrounding handler, which
records only the message. -/
def executeWorkflowAux (exec : WorkflowStep → StepOutcome) (totalSteps : Nat) :
    List WorkflowStep → Nat → WorkflowResult
  | [], done =>
    { success := true, stepsCompleted := done, totalSteps := totalSteps }
  | s :: rest, done =>
    match exec s with
    | .ok true => executeWorkflowAux exec totalSteps rest (done + 1)
    | .ok false =>
      { success := false, stepsCompleted := done, totalSteps := totalSteps,
        failedStep := some s, error := some ("Step failed: " ++ s.label) }
    | .exn m =>
      { success := false, stepsCompleted := done, totalSteps := totalSteps,
        error := some m }

/-- Engine entry point `WorkflowRunner.executeWorkflow`, with the effect
of `executeStep` abstracted as the oracle `exec` (dry-run mode is the
oracle that answers `ok true` everywhere). -/
def WorkflowRunner.executeWorkflow (exec : WorkflowStep → StepOutcome)
    (steps : List WorkflowStep) : WorkflowResult :=
  executeWorkflowAux exec steps.length steps 0

/-- A step signals success when `executeStep` returns `true`. -/
def stepOk (exec : WorkflowStep → StepOutcome) (s : WorkflowStep) : Bool :=
  match exec s with
  | .ok true => true
  | _ => false

theorem executeWorkflowAux_stepsCompleted
    (exec : WorkflowStep → StepOutcome) (t : Nat) :
    ∀ (steps : List WorkflowStep) (done : Nat),
      (executeWorkflowAux exec t steps done).stepsCompleted =
        done + (steps.takeWhile (stepOk exec)).length := by
  intro steps
  induction steps with
  | nil => intro done; simp [executeWorkflowAux]
  | cons s rest ih =>
    intro done
    rw [executeWorkflowAux, List.takeWhile_cons]
    cases h : exec s with
    | ok b =>
      cases b with
      | true => simp [stepOk, h, ih (done + 1)]; omega
      | false => simp [stepOk, h]
    | exn m => simp [stepOk, h]

theorem executeWorkflowAux_totalSteps
    (exec : WorkflowStep → StepOutcome) (t : Nat) :
    ∀ (steps : List WorkflowStep) (done : Nat),
      (executeWorkflowAux exec t steps done).totalSteps = t := by
  intro steps
  induction steps with
  | nil => intro done; simp [executeWorkflowAux]
  | cons s rest ih =>
    intro done
    rw [executeWorkflowAux]
    cases h : exec s with
    | ok b => cases b with
      | true => exact ih (done + 1)
      | false => rfl
    | exn m => rfl

theorem executeWorkflowAux_failedStep
    (exec : WorkflowStep → StepOutcome) (t : Nat) :
    ∀ (steps : List WorkflowStep) (done : Nat) (s : WorkflowStep),
      (executeWorkflowAux exec t steps done).failedStep = some s →
      exec s = .ok false := by
  intro steps
  induction steps with
  | nil => intro done s h; simp [executeWorkflowAux] at h
  | cons a rest ih =>
    intro done s h
    rw [executeWorkflowAux] at h
    cases ha : exec a with
    | ok b =>
      cases b with
      | true => rw [ha] at h; exact ih (done + 1) s h
      | false =>
        rw [ha] at h
        simp only [Option.some.injEq] at h
        rw [← h]; exact ha
    | exn m => rw [ha] at h; simp at h

theorem executeWorkflowAux_first_failure
    (exec : WorkflowStep → StepOutcome) (t : Nat) :
    ∀ (pre : List WorkflowStep) (s : WorkflowStep) (tail : List WorkflowStep)
      (done : Nat),
      (∀ p ∈ pre, exec p = .ok true) → exec s = .ok false →
      (executeWorkflowAux exec t (pre ++ s :: tail) done).success = false ∧
      (executeWorkflowAux exec t (pre ++ s :: tail) done).failedStep = some s := by
  intro pre
  induction pre with
  | nil =>
    intro s tail done _ hs
    rw [List.nil_append, executeWorkflowAux, hs]
    exact ⟨rfl, rfl⟩
  | cons a rest ih =>
    intro s tail done hpre hs
    rw [List.cons_append, executeWorkflowAux, hpre a (List.mem_cons_self a rest)]
    exact ih s tail (done + 1) (fun p hp => hpre p (List.mem_cons_of_mem a hp)) hs

/-- C1 (confirmed): for every step-execution oracle and workflow step
list, `executeWorkflow` returns a result whose `stepsCompleted` never
exceeds `totalSteps` (the length of the step list); `stepsCompleted`
counts exactly the steps that returned a success signal (the longest
all-successful prefix); whenever execution reaches a step that returns a
failure signal — i.e. the steps before it all succeeded and it returns
`false` — the result has `success = false` and `failedStep` equal to that
step; and `failedStep` is set only for such an explicit `false` return,
never when the workflow ends via a thrown exception. -/
theorem c1_executeWorkflow_spec (exec : WorkflowStep → StepOutcome)
    (steps : List WorkflowStep) :
    (WorkflowRunner.executeWorkflow exec steps).totalSteps = steps.length ∧
    (WorkflowRunner.executeWorkflow exec steps).stepsCompleted ≤
      (WorkflowRunner.executeWorkflow exec steps).totalSteps ∧
    (WorkflowRunner.executeWorkflow exec steps).stepsCompleted =
      (steps.takeWhile (stepOk exec)).length ∧
    (∀ (pre tail : List WorkflowStep) (s : WorkflowStep),
      steps = pre ++ s :: tail → (∀ p ∈ pre, exec p = .ok true) →
      exec s = .ok false →
      (WorkflowRunner.executeWorkflow exec steps).success = false ∧
      (WorkflowRunner.executeWorkflow exec steps).failedStep = some s) ∧
    (∀ s : WorkflowStep,
      (WorkflowRunner.executeWorkflow exec steps).failedStep = some s →
      exec s = .ok false) := by
  unfold WorkflowRunner.executeWorkflow
  refine ⟨executeWorkflowAux_totalSteps exec steps.length steps 0, ?_, ?_, ?_, ?_⟩
  · rw [executeWorkflowAux_stepsCompleted exec steps.length steps 0,
      executeWorkflowAux_totalSteps exec steps.length steps 0]
    have := (List.takeWhile_sublist (l := steps) (stepOk exec)).length_le
    omega
  · rw [executeWorkflowAux_stepsCompleted exec steps.length steps 0]
    omega
  · intro pre tail s hsteps hpre hs
    rw [hsteps]
    exact executeWorkflowAux_first_failure exec (pre ++ s :: tail).length
      pre s tail 0 hpre hs
  · exact fun s => executeWorkflowAux_failedStep exec steps.length steps 0 s

/-- C1 (witness): a two-step workflow whose second step returns `false`
stops with one completed step, `success = false` and `failedStep = push`. -/
theorem c1_witness :
    (WorkflowRunner.executeWorkflow
        (fun s => if s = .push then .ok false else .ok true)
        [.stageAll, .push]).success = false ∧
    (WorkflowRunner.executeWorkflow
        (fun s => if s = .push then .ok false else .ok true)
        [.stageAll, .push]).failedStep = some .push ∧
    (WorkflowRunner.executeWorkflow
        (fun s => if s = .push then .ok false else .ok true)
        [.stageAll, .push]).stepsCompleted = 1 := by
  have h := c1_executeWorkflow_spec
    (fun s => if s = .push then .ok false else .ok true) [.stageAll, .push]
  have hf := h.2.2.2.1 [.stageAll] [] .push rfl (by decide) (by decide)
  exact ⟨hf.1, hf.2, by rw [h.2.2.1]; decide⟩

/-! ## Provider fallback and the interactive commit loop

A model provider (collaborator `LLMProvider.generateText`) is abstracted
as a function from a message list to `Except`: `ok` is a returned string,
`error` a thrown error's message. -/

/-- A chat message `\x7b role, content \x7d` of the provider interface. -/
structure LLMMessage where
  role : String
  content : String
  deriving DecidableEq, Repr

/-- A provider's `generateText`, abstracted: success or thrown error. -/
abbrev GenFn := List LLMMessage → Except String String

/-- Fallback wrapper `WorkflowRunner.generateTextWithFallback`: call the
primary provider; on an error, retry the fallback when one is configured
and combine both messages when it also fails; with no fallback
configured, rethrow the primary's original error. -/
def WorkflowRunner.generateTextWithFallback (primary : GenFn)
    (fallback : Option GenFn) (messages : List LLMMessage) :
    Except String String :=
  match primary messages with
  | .ok r => .ok r
  | .error e =>
    match fallback with
    | some fb =>
      match fb messages with
      | .ok r => .ok r
      | .error e2 =>
        .error ("Both primary and fallback providers failed. Primary: " ++ e ++
          ", Fallback: " ++ e2)
    | none => .error e

/-- C7 (confirmed): `generateTextWithFallback` first calls the primary
provider and returns its successful result; when the primary errors and a
fallback is configured, a successful fallback result is returned; when
the fallback also errors, a single combined error is raised that contains
both the primary and the fallback failure messages; and when no fallback
is configured, the primary provider's original error propagates
unchanged. -/
theorem c7_generateTextWithFallback_spec (primary : GenFn)
    (fallback : Option GenFn) (messages : List LLMMessage) :
    (∀ r, primary messages = .ok r →
      WorkflowRunner.generateTextWithFallback primary fallback messages = .ok r) ∧
    (∀ e fb r, primary messages = .error e → fallback = some fb →
      fb messages = .ok r →
      WorkflowRunner.generateTextWithFallback primary fallback messages = .ok r) ∧
    (∀ e fb e2, primary messages = .error e → fallback = some fb →
      fb messages = .error e2 →
      WorkflowRunner.generateTextWithFallback primary fallback messages =
        .error ("Both primary and fallback providers failed. Primary: " ++ e ++
          ", Fallback: " ++ e2) ∧
      ∀ m, WorkflowRunner.generateTextWithFallback primary fallback messages =
          .error m →
        e.toList <:+: m.toList ∧ e2.toList <:+: m.toList) ∧
    (∀ e, primary messages = .error e → fallback = none →
      WorkflowRunner.generateTextWithFallback primary fallback messages =
        .error e) := by
  refine ⟨?_, ?_, ?_, ?_⟩
  · intro r h
    simp only [WorkflowRunner.generateTextWithFallback, h]
  · intro e fb r h hfb hok
    subst hfb
    simp only [WorkflowRunner.generateTextWithFallback, h, hok]
  · intro e fb e2 h hfb herr
    subst hfb
    have hre : WorkflowRunner.generateTextWithFallback primary (some fb) messages =
        .error ("Both primary and fallback providers failed. Primary: " ++ e ++
          ", Fallback: " ++ e2) := by
      simp only [WorkflowRunner.generateTextWithFallback, h, herr]
    refine ⟨hre, ?_⟩
    intro m hm
    rw [hre] at hm
    have hms : m = "Both primary and fallback providers failed. Primary: " ++ e ++
        ", Fallback: " ++ e2 := by
      cases hm; rfl
    subst hms
    constructor
    · refine ⟨("Both primary and fallback providers failed. Primary: ").toList,
        (", Fallback: " ++ e2).toList, ?_⟩
      simp [String.toList, String.data_append]
    · refine ⟨("Both primary and fallback providers failed. Primary: " ++ e ++
        ", Fallback: ").toList, [], ?_⟩
      simp [String.toList, String.data_append]
  · intro e h hnone
    subst hnone
    simp only [WorkflowRunner.generateTextWithFallback, h]

/-- C7 (witness): with a primary and a fallback provider that both fail,
the combined error is raised and contains both messages; with only a
failing primary, the original error propagates. -/
theorem c7_witness :
    WorkflowRunner.generateTextWithFallback (fun _ => .error "timeout")
        (some (fun _ => .error "quota")) [] =
      .error "Both primary and fallback providers failed. Primary: timeout, Fallback: quota" ∧
    WorkflowRunner.generateTextWithFallback (fun _ => .error "timeout") none [] =
      .error "timeout" ∧
    WorkflowRunner.generateTextWithFallback (fun _ => .error "timeout")
        (some (fun _ => .ok "feat: x")) [] = .ok "feat: x" := by
  refine ⟨?_, ?_, ?_⟩
  · have h := ((c7_generateTextWithFallback_spec (fun _ => .error "timeout")
      (some (fun _ => .error "quota")) []).2.2.1 "timeout" _ "quota" rfl rfl rfl).1
    rw [h]
    rfl
  · exact (c7_generateTextWithFallback_spec (fun _ => .error "timeout")
      none []).2.2.2 "timeout" rfl rfl
  · exact (c7_generateTextWithFallback_spec (fun _ => .error "timeout")
      (some (fun _ => .ok "feat: x")) []).2.1 "timeout" _ "feat: x" rfl rfl rfl

/-! ## `WorkflowRunner.commitInteractive`: the bounded retry loop

The user's select answer per attempt and the manual edit input are
abstracted as oracles; the base prompt built by
`buildBracketedCommitPrompt` from the staged diff is an abstract message
list (the guard that there are staged changes has already passed).  The
loop body regenerates, re-parses, shows the message and asks
accept / retry / edit / cancel; a retry stores the shown message and adds
a variation instruction listing all previous messages. -/

/-- Answers of the interactive accept/retry/edit/cancel select prompt. -/
inductive InteractiveAction where
  | accept | retry | edit | cancel
  deriving DecidableEq, Repr

/-- How one `commitInteractive` invocation can end. -/
inductive InteractiveOutcome where
  | committed (msg : String)
  | cancelled
  | maxRetries
  | errored (msg : String)
  deriving DecidableEq, Repr

/-- The loop bound `maxAttempts = 5` of `commitInteractive`. -/
def maxAttempts : Nat := 5

/-- The extra user message appended on a retry, listing all previously
generated messages. -/
def variationMessage (previousMessages : List String) : LLMMessage :=
  { role := "user",
    content := "Previous attempt(s) generated: " ++
      ⟨joinCommaSpace (previousMessages.map String.toList)⟩ ++
      ". Please generate a DIFFERENT commit message with alternative wording or perspective." }

/-- Body of the `while (attempts < maxAttempts)` loop of
`commitInteractive`.  `attempts` counts generation attempts performed so
far, `fuel` the remaining loop iterations (`maxAttempts - attempts`),
`previousMessages` the retried messages.  The result pairs the outcome
with the total number of generation attempts performed. -/
def commitInteractiveAux (basePrompt : List LLMMessage) (primary : GenFn)
    (fallback : Option GenFn) (choose : Nat → String → InteractiveAction)
    (edited : Nat → String → String) :
    Nat → Nat → List String → InteractiveOutcome × Nat
  | attempts, 0, _ => (.maxRetries, attempts)
  | attempts, fuel + 1, previousMessages =>
    let n := attempts + 1
    let messages := basePrompt ++
      (if 1 < n ∧ 0 < previousMessages.length then
        [variationMessage previousMessages] else [])
    match WorkflowRunner.generateTextWithFallback primary fallback messages with
    | .error e => (.errored e, n)
    | .ok response =>
      let commitMessage := ResponseValidator.parseCommitMessage response
      match choose n commitMessage with
      | .accept => (.committed commitMessage, n)
      | .edit => (.committed (edited n commitMessage), n)
      | .cancel => (.cancelled, n)
      | .retry =>
        commitInteractiveAux basePrompt primary fallback choose edited
          n fuel (previousMessages ++ [commitMessage])

/-- Interactive commit step `WorkflowRunner.commitInteractive`, from the
point where the staged-diff guard has passed. -/
def WorkflowRunner.commitInteractive (basePrompt : List LLMMessage)
    (primary : GenFn) (fallback : Option GenFn)
    (choose : Nat → String → InteractiveAction)
    (edited : Nat → String → String) : InteractiveOutcome × Nat :=
  commitInteractiveAux basePrompt primary fallback choose edited 0 maxAttempts []

theorem commitInteractiveAux_attempts_le (basePrompt : List LLMMessage)
    (primary : GenFn) (fallback : Option GenFn)
    (choose : Nat → String → InteractiveAction)
    (edited : Nat → String → String) :
    ∀ (fuel attempts : Nat) (prev : List String),
      (commitInteractiveAux basePrompt primary fallback choose edited
        attempts fuel prev).2 ≤ attempts + fuel := by
  intro fuel
  induction fuel with
  | zero => intro attempts prev; simp [commitInteractiveAux]
  | succ f ih =>
    intro attempts prev
    rw [commitInteractiveAux]
    cases hg : WorkflowRunner.generateTextWithFallback primary fallback _ with
    | error e => simp
    | ok response =>
      simp only
      cases choose (attempts + 1) (ResponseValidator.parseCommitMessage response) with
      | accept => simp
      | edit => simp
      | cancel => simp
      | retry =>
        simp only
        have := ih (attempts + 1) (prev ++ [ResponseValidator.parseCommitMessage response])
        omega

theorem commitInteractiveAux_all_retry (basePrompt : List LLMMessage)
    (primary : GenFn) (fallback : Option GenFn)
    (choose : Nat → String → InteractiveAction)
    (edited : Nat → String → String)
    (hgen : ∀ messages,
      (WorkflowRunner.generateTextWithFallback primary fallback messages).isOk = true)
    (hretry : ∀ n m, choose n m = .retry) :
    ∀ (fuel attempts : Nat) (prev : List String),
      commitInteractiveAux basePrompt primary fallback choose edited
        attempts fuel prev = (.maxRetries, attempts + fuel) := by
  intro fuel
  induction fuel with
  | zero => intro attempts prev; simp [commitInteractiveAux]
  | succ f ih =>
    intro attempts prev
    rw [commitInteractiveAux]
    cases hg : WorkflowRunner.generateTextWithFallback primary fallback
        (basePrompt ++ (if 1 < attempts + 1 ∧ 0 < prev.length then
          [variationMessage prev] else [])) with
    | error e =>
      have := hgen (basePrompt ++ (if 1 < attempts + 1 ∧ 0 < prev.length then
        [variationMessage prev] else []))
      rw [hg] at this
      exact absurd this (by simp [Except.isOk, Except.toBool])
    | ok response =>
      simp only [hretry]
      rw [ih (attempts + 1) (prev ++ [ResponseValidator.parseCommitMessage response])]
      have : attempts + 1 + f = attempts + (f + 1) := by omega
      rw [this]

/-- C6 (confirmed): every invocation of the interactive commit step
performs at most 5 generation attempts; and when generation always
succeeds and the user chooses retry at every attempt, the loop stops
after exactly 5 attempts with the distinct maximum-retries outcome
(`maxRetries`, reported after the loop with a "Maximum retry attempts
reached" warning) instead of generating a sixth time. -/
theorem c6_commitInteractive_spec (basePrompt : List LLMMessage)
    (primary : GenFn) (fallback : Option GenFn)
    (choose : Nat → String → InteractiveAction)
    (edited : Nat → String → String) :
    (WorkflowRunner.commitInteractive basePrompt primary fallback choose
      edited).2 ≤ 5 ∧
    ((∀ messages, (WorkflowRunner.generateTextWithFallback primary fallback
        messages).isOk = true) →
      (∀ n m, choose n m = .retry) →
      WorkflowRunner.commitInteractive basePrompt primary fallback choose
        edited = (.maxRetries, 5)) := by
  constructor
  · exact commitInteractiveAux_attempts_le basePrompt primary fallback
      choose edited maxAttempts 0 []
  · intro hgen hretry
    exact commitInteractiveAux_all_retry basePrompt primary fallback
      choose edited hgen hretry maxAttempts 0 []

/-- C6 (witness): with a provider that always succeeds and a user who
always retries, the loop performs exactly 5 attempts and reports the
maximum-retries outcome. -/
theorem c6_witness :
    WorkflowRunner.commitInteractive [] (fun _ => .ok "feat: add parser")
        none (fun _ _ => .retry) (fun _ m => m) = (.maxRetries, 5) :=
  (c6_commitInteractive_spec [] (fun _ => .ok "feat: add parser") none
      (fun _ _ => .retry) (fun _ m => m)).2
    (fun _ => rfl) (fun _ _ => rfl)

/-! ## `src/checks/checkRunner.ts`, class `CheckRunner`

The check configuration map (a `Map` built from `Object.entries` of the
config object) is modelled directly as a lookup function, and the
`execSync` call of `runSingleCheck` as an oracle from the check name and
its configuration to an execution outcome. -/

/-- Configuration record `CheckConfig` of `src/checks/types.ts`. -/
structure CheckConfig where
  enabled : Bool
  command : String
  blocking : Bool
  message : Option String := none
  autofix : Option String := none
  timeout : Option Nat := none
  deriving DecidableEq, Repr

/-- Result record `CheckResult` of `src/checks/types.ts`. -/
structure CheckResult where
  name : String
  passed : Bool
  output : String
  error : Option String := none
  duration : Nat
  autoFixAvailable : Bool
  deriving DecidableEq, Repr

/-- Summary record `CheckSummary` of `src/checks/types.ts`. -/
structure CheckSummary where
  totalChecks : Nat
  passed : Nat
  failed : Nat
  skipped : Nat
  results : List CheckResult
  totalDuration : Nat
  deriving DecidableEq, Repr

/-- Outcome of the `execSync` call for a check command: success with the
command output, or a thrown error with a message and captured output;
both carry the measured duration. -/
inductive ExecOutcome where
  | success (output : String) (duration : Nat)
  | failure (errMsg : String) (output : String) (duration : Nat)
  deriving DecidableEq, Repr

/-- Shape of the command-execution oracle: check name and configuration
to the outcome of running the configured command. -/
abbrev ExecOracle := String → CheckConfig → ExecOutcome

/-- Single check execution `CheckRunner.runSingleCheck`: builds the
`CheckResult` (with `autoFixAvailable` from the configured autofix
command) from the `execSync` outcome. -/
def CheckRunner.runSingleCheck (oracle : ExecOracle) (name : String)
    (config : CheckConfig) : CheckResult :=
  match oracle name config with
  | .success out d =>
    { name := name, passed := true, output := out, duration := d,
      autoFixAvailable := config.autofix.isSome }
  | .failure e out d =>
    { name := name, passed := false, output := out, error := some e,
      duration := d, autoFixAvailable := config.autofix.isSome }

/-- Loop of `CheckRunner.runChecks`: walk the requested names; skip
unknown and disabled checks; run the rest in order, accumulating results
and durations, and break right after a failed blocking check. -/
def runChecksAux (checks : String → Option CheckConfig) (oracle : ExecOracle) :
    List String → List CheckResult × Nat
  | [] => ([], 0)
  | checkName :: rest =>
    match checks checkName with
    | none => runChecksAux checks oracle rest
    | some checkConfig =>
      if !checkConfig.enabled then runChecksAux checks oracle rest
      else
        let result := CheckRunner.runSingleCheck oracle checkName checkConfig
        if checkConfig.blocking && !result.passed then ([result], result.duration)
        else
          let (results, totalDuration) := runChecksAux checks oracle rest
          (result :: results, result.duration + totalDuration)

/-- Summary construction `CheckRunner.summarizeResults`. -/
def CheckRunner.summarizeResults (results : List CheckResult)
    (totalDuration : Nat) : CheckSummary :=
  { totalChecks := results.length,
    passed := (results.filter (fun r => r.passed)).length,
    failed := (results.filter (fun r => !r.passed)).length,
    skipped := 0,
    results := results,
    totalDuration := totalDuration }

/-- Entry point `CheckRunner.runChecks`. -/
def CheckRunner.runChecks (checks : String → Option CheckConfig)
    (oracle : ExecOracle) (checkNames : List String) : CheckSummary :=
  let (results, totalDuration) := runChecksAux checks oracle checkNames
  CheckRunner.summarizeResults results totalDuration

/-- The requested names that name a known, enabled check, paired with
their configurations. -/
def eligibleChecks (checks : String → Option CheckConfig)
    (checkNames : List String) : List (String × CheckConfig) :=
  checkNames.filterMap fun n =>
    match checks n with
    | none => none
    | some cfg => if cfg.enabled then some (n, cfg) else none

/-- Continue signal of the check loop: a step does not stop the loop
unless it is blocking and failed. -/
def checkContinues (p : Bool × CheckResult) : Bool := !(p.1 && !p.2.passed)

theorem runChecksAux_characterization (checks : String → Option CheckConfig)
    (oracle : ExecOracle) :
    ∀ checkNames : List String,
      (runChecksAux checks oracle checkNames).1 =
        ((((eligibleChecks checks checkNames).map fun p =>
            (p.2.blocking, CheckRunner.runSingleCheck oracle p.1 p.2)).takeWhile
              checkContinues).map Prod.snd) ++
        (((((eligibleChecks checks checkNames).map fun p =>
            (p.2.blocking, CheckRunner.runSingleCheck oracle p.1 p.2)).dropWhile
              checkContinues).take 1).map Prod.snd) := by
  intro checkNames
  induction checkNames with
  | nil => simp [runChecksAux, eligibleChecks]
  | cons n rest ih =>
    cases hc : checks n with
    | none =>
      simp only [runChecksAux, hc]
      simpa [eligibleChecks, hc] using ih
    | some cfg =>
      by_cases he : cfg.enabled
      · by_cases hb :
            (cfg.blocking && !(CheckRunner.runSingleCheck oracle n cfg).passed) = true
        · have hcont : checkContinues
              (cfg.blocking, CheckRunner.runSingleCheck oracle n cfg) = false := by
            simp only [checkContinues, hb, Bool.not_true]
          simp [runChecksAux, hc, he, hb, eligibleChecks, hcont]
        · have hbf : (cfg.blocking &&
              !(CheckRunner.runSingleCheck oracle n cfg).passed) = false := by
            cases hx : (cfg.blocking &&
                !(CheckRunner.runSingleCheck oracle n cfg).passed) with
            | true => exact absurd hx hb
            | false => rfl
          have hcont : checkContinues
              (cfg.blocking, CheckRunner.runSingleCheck oracle n cfg) = true := by
            simp only [checkContinues, hbf, Bool.not_false]
          cases hrec : runChecksAux checks oracle rest with
          | mk results totalDuration =>
            rw [hrec] at ih
            simp only at ih
            simp [runChecksAux, hc, he, hbf, eligibleChecks, hcont, hrec, ih]
      · have hef : cfg.enabled = false := by
          cases hx : cfg.enabled with
          | true => exact absurd hx he
          | false => rfl
        simp only [runChecksAux, hc, hef]
        simpa [eligibleChecks, hc, hef] using ih

theorem mem_eligibleChecks {checks : String → Option CheckConfig}
    {ns : List String} {n : String} {cfg : CheckConfig}
    (h : (n, cfg) ∈ eligibleChecks checks ns) :
    checks n = some cfg ∧ cfg.enabled = true := by
  rw [eligibleChecks, List.mem_filterMap] at h
  obtain ⟨a, _, hfa⟩ := h
  cases hca : checks a with
  | none => rw [hca] at hfa; simp at hfa
  | some c =>
    rw [hca] at hfa
    by_cases hce : c.enabled
    · simp only [hce, if_true, Option.some.injEq, Prod.mk.injEq] at hfa
      obtain ⟨rfl, rfl⟩ := hfa
      exact ⟨hca, hce⟩
    · simp [hce] at hfa

theorem runSingleCheck_name (oracle : ExecOracle) (n : String)
    (cfg : CheckConfig) : (CheckRunner.runSingleCheck oracle n cfg).name = n := by
  cases h : oracle n cfg <;> simp [CheckRunner.runSingleCheck, h]

/-- C10 (confirmed): `runChecks` executes checks in list order and stops
immediately after the first check that fails while configured as
blocking: the recorded results are exactly the eligible checks' results
up to and including that first blocking failure (so no later check is
executed or appears in the summary), and every recorded result belongs
to a known, enabled check — unknown or disabled names are skipped without
producing a `CheckResult`. -/
theorem c10_runChecks_spec (checks : String → Option CheckConfig)
    (oracle : ExecOracle) (checkNames : List String) :
    ((CheckRunner.runChecks checks oracle checkNames).results =
      ((((eligibleChecks checks checkNames).map fun p =>
          (p.2.blocking, CheckRunner.runSingleCheck oracle p.1 p.2)).takeWhile
            checkContinues).map Prod.snd) ++
      (((((eligibleChecks checks checkNames).map fun p =>
          (p.2.blocking, CheckRunner.runSingleCheck oracle p.1 p.2)).dropWhile
            checkContinues).take 1).map Prod.snd)) ∧
    (∀ r ∈ (CheckRunner.runChecks checks oracle checkNames).results,
      ∃ cfg, checks r.name = some cfg ∧ cfg.enabled = true) := by
  have hres : (CheckRunner.runChecks checks oracle checkNames).results =
      (runChecksAux checks oracle checkNames).1 := by
    rw [CheckRunner.runChecks]
    cases runChecksAux checks oracle checkNames with
    | mk results totalDuration => rfl
  constructor
  · rw [hres]
    exact runChecksAux_characterization checks oracle checkNames
  · intro r hr
    rw [hres, runChecksAux_characterization checks oracle checkNames] at hr
    have hmem : r ∈ ((eligibleChecks checks checkNames).map fun p =>
        (p.2.blocking, CheckRunner.runSingleCheck oracle p.1 p.2)).map Prod.snd := by
      rcases List.mem_append.mp hr with h | h
      · exact List.map_subset Prod.snd
          (((List.takeWhile_sublist _).subset : _)) h
      · exact List.map_subset Prod.snd
          (fun x hx => (List.dropWhile_sublist _).subset
            ((List.take_sublist _ _).subset hx)) h
    rw [List.map_map] at hmem
    obtain ⟨p, hp, hpr⟩ := List.mem_map.mp hmem
    obtain ⟨hck, hen⟩ := mem_eligibleChecks hp
    refine ⟨p.2, ?_, hen⟩
    have : r.name = p.1 := by
      rw [← hpr]
      exact runSingleCheck_name oracle p.1 p.2
    rw [this]
    exact hck

/-- Concrete check configuration for the C10 witness: an enabled
non-blocking lint check and an enabled blocking test check. -/
def sampleChecksConfig : String → Option CheckConfig := fun n =>
  if n = "test" then
    some { enabled := true, command := "npm test", blocking := true }
  else if n = "lint" then
    some { enabled := true, command := "npm run lint", blocking := false }
  else none

/-- Concrete execution oracle for the C10 witness: the test command
fails, everything else passes. -/
def sampleExecOracle : ExecOracle := fun n _ =>
  if n = "test" then .failure "exit 1" "1 failing" 7 else .success "ok" 3

/-- C10 (witness): on the name list ["nope", "lint", "test", "lint"] the
unknown check produces no result, the blocking test failure stops the
run, the trailing lint is never recorded, and the recorded test result
names a known enabled check. -/
theorem c10_witness :
    (CheckRunner.runChecks sampleChecksConfig sampleExecOracle
        ["nope", "lint", "test", "lint"]).results =
      [{ name := "lint", passed := true, output := "ok", duration := 3,
         autoFixAvailable := false },
       { name := "test", passed := false, output := "1 failing",
         error := some "exit 1", duration := 7, autoFixAvailable := false }] ∧
    ∃ cfg, sampleChecksConfig "test" = some cfg ∧ cfg.enabled = true := by
  constructor
  · rw [(c10_runChecks_spec sampleChecksConfig sampleExecOracle
      ["nope", "lint", "test", "lint"]).1]
    decide
  · exact (c10_runChecks_spec sampleChecksConfig sampleExecOracle
      ["nope", "lint", "test", "lint"]).2
      { name := "test", passed := false, output := "1 failing",
        error := some "exit 1", duration := 7, autoFixAvailable := false }
      (by decide)

/-! ## `src/git/commitHistoryRetriever.ts`, class `CommitHistoryRetriever`

The similarity ranker scores each historical commit (obtained from the
git log collaborator, here the `commits` input) against the staged
change. JavaScript `Set`s are modelled as `Finset`s — the code only uses
sizes and membership — and the floating-point weights as exact rationals. -/

/-- Record `HistoricalCommit` with its 0–1 similarity score. -/
structure HistoricalCommit where
  hash : String
  message : String
  files : List String
  similarity : ℚ
  deriving DecidableEq, Repr

/-- Directory of a path, `CommitHistoryRetriever.getDirectory`: the part
before the last slash, or "." for a root file. -/
def getDirectory (filePath : String) : String :=
  let rev := filePath.toList.reverse.dropWhile (· ≠ '/')
  if rev.isEmpty then "." else ⟨(rev.drop 1).reverse⟩

/-- Jaccard overlap `CommitHistoryRetriever.calculateFileOverlap`:
0 when either list is empty, otherwise intersection size over union size
of the two path sets. -/
def calculateFileOverlap (files1 files2 : List String) : ℚ :=
  if files1.length = 0 ∨ files2.length = 0 then 0
  else
    let set1 := files1.toFinset
    let set2 := files2.toFinset
    let intersection := (set1 ∩ set2).card
    let union := set1.card + set2.card - intersection
    if 0 < union then (intersection : ℚ) / (union : ℚ) else 0

/-- Directory Jaccard overlap,
`CommitHistoryRetriever.calculateDirectoryOverlap`. -/
def calculateDirectoryOverlap (files1 files2 : List String) : ℚ :=
  if files1.length = 0 ∨ files2.length = 0 then 0
  else
    let dirs1 := (files1.map getDirectory).toFinset
    let dirs2 := (files2.map getDirectory).toFinset
    let intersection := (dirs1 ∩ dirs2).card
    let union := dirs1.card + dirs2.card - intersection
    if 0 < union then (intersection : ℚ) / (union : ℚ) else 0

/-- Keyword score `CommitHistoryRetriever.calculateKeywordMatch`: the
fraction of keywords appearing case-insensitively in the subject line
(0 when no keywords are supplied). -/
def calculateKeywordMatch (message : String) (keywords : List String) : ℚ :=
  if keywords.length = 0 then 0
  else
    let lowerMessage := message.toList.map jsToLower
    let matchCount := keywords.countP
      (fun keyword => containsSub lowerMessage (keyword.toList.map jsToLower))
    (matchCount : ℚ) / (keywords.length : ℚ)

/-- Combined score `CommitHistoryRetriever.calculateSimilarity`:
0.6 · file overlap + 0.3 · directory overlap + 0.1 · keyword match. -/
def calculateSimilarity (commit : HistoricalCommit) (changedFiles : List String)
    (keywords : List String) : ℚ :=
  calculateFileOverlap commit.files changedFiles * (6/10) +
  calculateDirectoryOverlap commit.files changedFiles * (3/10) +
  calculateKeywordMatch commit.message keywords * (1/10)

/-- Scoring pass of `findSimilarCommits`: each parsed commit with its
similarity against the current change set. -/
def scoreCommits (commits : List HistoricalCommit) (changedFiles : List String)
    (keywords : List String) : List HistoricalCommit :=
  commits.map fun commit =>
    { commit with similarity := calculateSimilarity commit changedFiles keywords }

/-- Descending-by-similarity comparator of the `sort` call: the JS
comparator keeps `a` before `b` when `b.similarity - a.similarity ≤ 0`,
and `Array.prototype.sort` is stable (modelled by the stable
`List.mergeSort`). -/
def bySimilarityDesc (a b : HistoricalCommit) : Bool :=
  decide (b.similarity ≤ a.similarity)

/-- Ranker `CommitHistoryRetriever.findSimilarCommits` on an already
parsed history: score, filter out zero scores, stable-sort descending,
truncate to `maxCommits` (constructor default 5). -/
def CommitHistoryRetriever.findSimilarCommits (commits : List HistoricalCommit)
    (changedFiles : List String) (keywords : List String) (maxCommits : Nat) :
    List HistoricalCommit :=
  ((((scoreCommits commits changedFiles keywords).filter
      (fun c => decide (0 < c.similarity))).mergeSort bySimilarityDesc).take
    maxCommits)

/-- Default of the `maxCommits` constructor parameter. -/
def defaultMaxCommits : Nat := 5

/-! ## C5: similarity score bounds -/

theorem jaccard_nonneg_le_one (s t : Finset String) :
    0 ≤ (if 0 < s.card + t.card - (s ∩ t).card
         then (((s ∩ t).card : ℚ) / ((s.card + t.card - (s ∩ t).card : ℕ) : ℚ))
         else 0) ∧
    (if 0 < s.card + t.card - (s ∩ t).card
     then (((s ∩ t).card : ℚ) / ((s.card + t.card - (s ∩ t).card : ℕ) : ℚ))
     else 0) ≤ 1 := by
  have hi1 : (s ∩ t).card ≤ s.card := Finset.card_le_card Finset.inter_subset_left
  have hi2 : (s ∩ t).card ≤ t.card := Finset.card_le_card Finset.inter_subset_right
  constructor
  · split
    · positivity
    · exact le_rfl
  · split
    · rename_i hu
      rw [div_le_one (by exact_mod_cast hu)]
      exact_mod_cast (by omega : (s ∩ t).card ≤ s.card + t.card - (s ∩ t).card)
    · norm_num

theorem calculateFileOverlap_bounds (f1 f2 : List String) :
    0 ≤ calculateFileOverlap f1 f2 ∧ calculateFileOverlap f1 f2 ≤ 1 := by
  rw [calculateFileOverlap]
  split
  · exact ⟨le_rfl, by norm_num⟩
  · exact jaccard_nonneg_le_one f1.toFinset f2.toFinset

theorem calculateDirectoryOverlap_bounds (f1 f2 : List String) :
    0 ≤ calculateDirectoryOverlap f1 f2 ∧ calculateDirectoryOverlap f1 f2 ≤ 1 := by
  rw [calculateDirectoryOverlap]
  split
  · exact ⟨le_rfl, by norm_num⟩
  · exact jaccard_nonneg_le_one (f1.map getDirectory).toFinset
      (f2.map getDirectory).toFinset

theorem calculateKeywordMatch_bounds (message : String) (keywords : List String) :
    0 ≤ calculateKeywordMatch message keywords ∧
    calculateKeywordMatch message keywords ≤ 1 := by
  rw [calculateKeywordMatch]
  split
  · exact ⟨le_rfl, by norm_num⟩
  · rename_i hk
    have hlen : 0 < keywords.length := Nat.pos_of_ne_zero hk
    have hc : keywords.countP
        (fun keyword => containsSub (message.toList.map jsToLower)
          (keyword.toList.map jsToLower)) ≤ keywords.length :=
      List.countP_le_length _
    constructor
    · positivity
    · rw [div_le_one (by exact_mod_cast hlen)]
      exact_mod_cast hc

/-- The concrete score of the no-files commit with subject "fix bug"
against an empty change set with keyword "fix": only the keyword
component contributes, giving 1/10.  (Shared by the C4 witness and the
C5 counterexample.) -/
theorem calculateSimilarity_fixbug :
    calculateSimilarity ⟨"abc123", "fix bug", [], 0⟩ [] ["fix"] = 1/10 := by
  have hcount : List.countP
      (fun keyword => containsSub ("fix bug".toList.map jsToLower)
        (keyword.toList.map jsToLower)) ["fix"] = 1 := by decide
  have hkm : calculateKeywordMatch "fix bug" ["fix"] = 1 := by
    simp only [calculateKeywordMatch, List.length_cons, List.length_nil]
    rw [if_neg (by norm_num), hcount]
    norm_num
  have h1 : calculateFileOverlap [] [] = 0 := by rw [calculateFileOverlap]; simp
  have h2 : calculateDirectoryOverlap [] [] = 0 := by
    rw [calculateDirectoryOverlap]; simp
  simp only [calculateSimilarity, h1, h2, hkm]
  norm_num

/-- C5 (counterexample): the claim says the score is 0 whenever both
compared file sets are empty, but the keyword component does not look at
the file sets: a commit with no files, compared against no changed files
but with the supplied keyword "fix" occurring in its subject line, scores
0.1 · 1 = 1/10 ≠ 0. -/
theorem c5_counterexample :
    calculateSimilarity ⟨"abc123", "fix bug", [], 0⟩ [] ["fix"] = 1/10 ∧
    calculateSimilarity ⟨"abc123", "fix bug", [], 0⟩ [] ["fix"] ≠ 0 :=
  ⟨calculateSimilarity_fixbug, by rw [calculateSimilarity_fixbug]; norm_num⟩

/-- C5 (amended): for every candidate commit, changed-file set and
keyword list, the similarity score lies in [0, 1], being the weighted sum
0.6 · fileOverlap + 0.3 · dirOverlap + 0.1 · keywordMatch with each
component in [0, 1]; whenever both compared file sets are empty, the
file-overlap and directory-overlap components are 0 and the score equals
0.1 · keywordMatch (so it is 0 exactly when the keyword component is 0,
e.g. when no keywords are supplied). -/
theorem c5_calculateSimilarity_spec (commit : HistoricalCommit)
    (changedFiles : List String) (keywords : List String) :
    calculateSimilarity commit changedFiles keywords =
      calculateFileOverlap commit.files changedFiles * (6/10) +
      calculateDirectoryOverlap commit.files changedFiles * (3/10) +
      calculateKeywordMatch commit.message keywords * (1/10) ∧
    (0 ≤ calculateFileOverlap commit.files changedFiles ∧
      calculateFileOverlap commit.files changedFiles ≤ 1) ∧
    (0 ≤ calculateDirectoryOverlap commit.files changedFiles ∧
      calculateDirectoryOverlap commit.files changedFiles ≤ 1) ∧
    (0 ≤ calculateKeywordMatch commit.message keywords ∧
      calculateKeywordMatch commit.message keywords ≤ 1) ∧
    0 ≤ calculateSimilarity commit changedFiles keywords ∧
    calculateSimilarity commit changedFiles keywords ≤ 1 ∧
    (commit.files = [] → changedFiles = [] →
      calculateSimilarity commit changedFiles keywords =
        calculateKeywordMatch commit.message keywords * (1/10)) := by
  obtain ⟨hf0, hf1⟩ := calculateFileOverlap_bounds commit.files changedFiles
  obtain ⟨hd0, hd1⟩ := calculateDirectoryOverlap_bounds commit.files changedFiles
  obtain ⟨hk0, hk1⟩ := calculateKeywordMatch_bounds commit.message keywords
  refine ⟨rfl, ⟨hf0, hf1⟩, ⟨hd0, hd1⟩, ⟨hk0, hk1⟩, ?_, ?_, ?_⟩
  · rw [calculateSimilarity]
    positivity
  · rw [calculateSimilarity]
    nlinarith [hf1, hd1, hk1, hf0, hd0, hk0]
  · intro hcf hch
    rw [calculateSimilarity, hcf, hch]
    have h1 : calculateFileOverlap [] [] = 0 := by rw [calculateFileOverlap]; simp
    have h2 : calculateDirectoryOverlap [] [] = 0 := by
      rw [calculateDirectoryOverlap]; simp
    rw [h1, h2]
    ring

/-- C5 (witness): with one changed file shared with the candidate commit
and a matching keyword, the score is strictly inside [0, 1]; with both
file sets empty the score collapses to the keyword tenth. -/
theorem c5_witness :
    calculateSimilarity ⟨"abc123", "fix bug", [], 0⟩ [] ["fix"] =
      calculateKeywordMatch "fix bug" ["fix"] * (1/10) ∧
    0 ≤ calculateSimilarity ⟨"d4", "feat: add x", ["src/a.ts"], 0⟩
        ["src/a.ts", "src/b.ts"] ["add"] ∧
    calculateSimilarity ⟨"d4", "feat: add x", ["src/a.ts"], 0⟩
        ["src/a.ts", "src/b.ts"] ["add"] ≤ 1 := by
  refine ⟨(c5_calculateSimilarity_spec ⟨"abc123", "fix bug", [], 0⟩ [] ["fix"]).2.2.2.2.2.2
      rfl rfl, ?_, ?_⟩
  · exact (c5_calculateSimilarity_spec ⟨"d4", "feat: add x", ["src/a.ts"], 0⟩
      ["src/a.ts", "src/b.ts"] ["add"]).2.2.2.2.1
  · exact (c5_calculateSimilarity_spec ⟨"d4", "feat: add x", ["src/a.ts"], 0⟩
      ["src/a.ts", "src/b.ts"] ["add"]).2.2.2.2.2.1

/-! ## C4: shape of the ranked result -/

theorem bySimilarityDesc_trans (a b c : HistoricalCommit)
    (h1 : bySimilarityDesc a b) (h2 : bySimilarityDesc b c) :
    bySimilarityDesc a c :=
  decide_eq_true (le_trans (of_decide_eq_true h2) (of_decide_eq_true h1))

theorem bySimilarityDesc_total (a b : HistoricalCommit) :
    bySimilarityDesc a b || bySimilarityDesc b a := by
  rw [Bool.or_eq_true]
  rcases le_total a.similarity b.similarity with h | h
  · exact Or.inr (decide_eq_true h)
  · exact Or.inl (decide_eq_true h)

/-- C4 (confirmed): for every history, changed-file list, keyword list
and bound, `findSimilarCommits` returns a sequence that contains no
commit with similarity 0 (every returned score is strictly positive), is
sorted by non-increasing similarity, has length at most `maxCommits`
(default 5), and is stable: for each score value, the returned commits
with that score are an initial segment of the score-filtered history in
its original (reverse-chronological) order. -/
theorem c4_findSimilarCommits_spec (commits : List HistoricalCommit)
    (changedFiles : List String) (keywords : List String) (maxCommits : Nat) :
    (∀ c ∈ CommitHistoryRetriever.findSimilarCommits commits changedFiles
        keywords maxCommits, 0 < c.similarity) ∧
    (CommitHistoryRetriever.findSimilarCommits commits changedFiles keywords
      maxCommits).Pairwise (fun a b => b.similarity ≤ a.similarity) ∧
    (CommitHistoryRetriever.findSimilarCommits commits changedFiles keywords
      maxCommits).length ≤ maxCommits ∧
    (∀ q : ℚ, ∃ t : List HistoricalCommit,
      (CommitHistoryRetriever.findSimilarCommits commits changedFiles keywords
        maxCommits).filter (fun c => decide (c.similarity = q)) ++ t =
      ((scoreCommits commits changedFiles keywords).filter
        (fun c => decide (0 < c.similarity))).filter
          (fun c => decide (c.similarity = q))) := by
  set F := (scoreCommits commits changedFiles keywords).filter
    (fun c => decide (0 < c.similarity)) with hF
  have hunfold : CommitHistoryRetriever.findSimilarCommits commits changedFiles
      keywords maxCommits = (F.mergeSort bySimilarityDesc).take maxCommits := rfl
  refine ⟨?_, ?_, ?_, ?_⟩
  · intro c hc
    rw [hunfold] at hc
    have hms : c ∈ F.mergeSort bySimilarityDesc :=
      (List.take_sublist _ _).subset hc
    have hmem : c ∈ F := (List.mergeSort_perm F bySimilarityDesc).subset hms
    rw [hF] at hmem
    exact of_decide_eq_true (List.mem_filter.mp hmem).2
  · rw [hunfold]
    have hsorted := List.sorted_mergeSort bySimilarityDesc_trans
      bySimilarityDesc_total F
    exact ((hsorted.sublist (List.take_sublist _ _)).imp
      (fun h => of_decide_eq_true h))
  · rw [hunfold]
    exact (List.length_take _ _).le.trans (Nat.min_le_left _ _)
  · intro q
    set p : HistoricalCommit → Bool := fun c => decide (c.similarity = q) with hp
    have hall : ∀ x ∈ F.filter p, p x = true := fun x hx => List.of_mem_filter hx
    have hpairwise : (F.filter p).Pairwise
        (fun a b => bySimilarityDesc a b = true) := by
      refine List.pairwise_of_forall_mem_list ?_
      intro a ha b hb
      have ha2 : a.similarity = q := of_decide_eq_true (hall a ha)
      have hb2 : b.similarity = q := of_decide_eq_true (hall b hb)
      exact decide_eq_true (show b.similarity ≤ a.similarity by rw [ha2, hb2])
    have hsub : List.Sublist (F.filter p) (F.mergeSort bySimilarityDesc) :=
      List.sublist_mergeSort bySimilarityDesc_trans bySimilarityDesc_total
        hpairwise (List.filter_sublist F)
    have heq : (F.mergeSort bySimilarityDesc).filter p = F.filter p := by
      have h1 : List.Sublist (F.filter p)
          ((F.mergeSort bySimilarityDesc).filter p) := by
        have := hsub.filter p
        rwa [List.filter_eq_self.mpr hall] at this
      have h2 : ((F.mergeSort bySimilarityDesc).filter p).length =
          (F.filter p).length :=
        ((List.mergeSort_perm F bySimilarityDesc).filter p).length_eq
      exact (h1.eq_of_length h2.symm).symm
    refine ⟨((F.mergeSort bySimilarityDesc).drop maxCommits).filter p, ?_⟩
    rw [hunfold, ← List.filter_append,
      List.take_append_drop maxCommits (F.mergeSort bySimilarityDesc), heq]

/-- C4 (witness): on a one-commit history whose only relation to the
change set is a matching keyword, the ranker keeps that commit with its
score 1/10, which is strictly positive. -/
theorem c4_witness :
    CommitHistoryRetriever.findSimilarCommits
        [⟨"abc123", "fix bug", [], 0⟩] [] ["fix"] 5 =
      [⟨"abc123", "fix bug", [], 1/10⟩] ∧
    0 < (⟨"abc123", "fix bug", [], 1/10⟩ : HistoricalCommit).similarity := by
  have hscore : scoreCommits [⟨"abc123", "fix bug", [], 0⟩] [] ["fix"] =
      [⟨"abc123", "fix bug", [], 1/10⟩] := by
    simp only [scoreCommits, List.map_cons, List.map_nil]
    rw [show calculateSimilarity ⟨"abc123", "fix bug", [], 0⟩ [] ["fix"] = 1/10
      from calculateSimilarity_fixbug]
  have hfilter : List.filter (fun c => decide (0 < c.similarity))
      [(⟨"abc123", "fix bug", [], 1/10⟩ : HistoricalCommit)] =
      [⟨"abc123", "fix bug", [], 1/10⟩] := by
    rw [List.filter_cons, if_pos (decide_eq_true (by norm_num)), List.filter_nil]
  have hr : CommitHistoryRetriever.findSimilarCommits
      [⟨"abc123", "fix bug", [], 0⟩] [] ["fix"] 5 =
      [⟨"abc123", "fix bug", [], 1/10⟩] := by
    rw [CommitHistoryRetriever.findSimilarCommits, hscore, hfilter,
      List.mergeSort_of_sorted (List.pairwise_singleton _ _)]
    rfl
  refine ⟨hr, ?_⟩
  exact (c4_findSimilarCommits_spec [⟨"abc123", "fix bug", [], 0⟩] [] ["fix"] 5).1
    ⟨"abc123", "fix bug", [], 1/10⟩ (by rw [hr]; exact List.mem_singleton_self _)

/-! ## `CodeContextExtractor` (second class of
`src/git/commitHistoryRetriever.ts`)

The extractor walks the diff line by line, tracking the current file from
the `diff --git` headers, and matches added/deleted lines against a fixed
ordered set of regex patterns.  Each regex is embedded as a deterministic
scanner: all the patterns' adjacent character classes are disjoint, so
greedy matching without backtracking, at the leftmost matching keyword
occurrence, is exact (the optional `export`/`async`/`default` prefixes
only widen a match leftwards and never change the capture). -/

/-- Symbol kinds of the `CodeSymbol` interface. -/
inductive SymType where
  | function | class_ | interface | type_ | variable | constant | import_ | export_
  deriving DecidableEq, Repr

/-- String value of a symbol kind, as used in the dedup/grouping keys. -/
def SymType.str : SymType → List Char
  | .function => "function".toList
  | .class_ => "class".toList
  | .interface => "interface".toList
  | .type_ => "type".toList
  | .variable => "variable".toList
  | .constant => "constant".toList
  | .import_ => "import".toList
  | .export_ => "export".toList

/-- Symbol actions of the `CodeSymbol` interface. -/
inductive SymAction where
  | added | modified | deleted | renamed
  deriving DecidableEq, Repr

/-- String value of a symbol action, as used in the dedup key. -/
def SymAction.str : SymAction → List Char
  | .added => "added".toList
  | .modified => "modified".toList
  | .deleted => "deleted".toList
  | .renamed => "renamed".toList

/-- Record `CodeSymbol`: one semantic unit changed in one file. -/
structure CodeSymbol where
  name : List Char
  type : SymType
  action : SymAction
  oldName : Option (List Char) := none
  file : List Char
  deriving DecidableEq, Repr

/-- Record `CodeContext`: the extracted symbols plus a prose summary. -/
structure CodeContext where
  symbols : List CodeSymbol
  summary : List Char
  deriving DecidableEq, Repr

/-- Scan a line left to right and return the first position at which the
partial matcher `f` succeeds — the leftmost-match rule of an unanchored
JavaScript regex search. -/
def scanFirst (f : List Char → Option β) : List Char → Option β
  | [] => f []
  | c :: t =>
    match f (c :: t) with
    | some b => some b
    | none => scanFirst f t

/-- Match a literal string at the current position, returning the rest. -/
def matchLit (lit l : List Char) : Option (List Char) :=
  if headsWith lit l then some (l.drop lit.length) else none

/-- Match one-or-more whitespace then a one-or-more word-character
capture (the regex tail `\s+(\w+)`); the classes are disjoint, so the
greedy reading is exact.  Returns the capture and the rest. -/
def matchSpacesWord (l : List Char) : Option (List Char × List Char) :=
  let sp := l.takeWhile isJsSpace
  if sp.isEmpty then none
  else
    let rest := l.dropWhile isJsSpace
    let w := rest.takeWhile isWordChar
    if w.isEmpty then none else some (w, rest.drop w.length)

/-- Capture of the function-declaration regex: the word after the first
occurrence of the literal `function` followed by whitespace. -/
def funcCapture (line : List Char) : Option (List Char) :=
  scanFirst (fun l =>
    match matchLit "function".toList l with
    | none => none
    | some r => (matchSpacesWord r).map Prod.fst) line

/-- Capture of the class-declaration regex. -/
def classCapture (line : List Char) : Option (List Char) :=
  scanFirst (fun l =>
    match matchLit "class".toList l with
    | none => none
    | some r => (matchSpacesWord r).map Prod.fst) line

/-- Capture of the interface-declaration regex. -/
def interfaceCapture (line : List Char) : Option (List Char) :=
  scanFirst (fun l =>
    match matchLit "interface".toList l with
    | none => none
    | some r => (matchSpacesWord r).map Prod.fst) line

/-- Capture of the type-alias regex: `type`, whitespace, a word capture,
optional whitespace, then a literal equals sign. -/
def typeCapture (line : List Char) : Option (List Char) :=
  scanFirst (fun l =>
    match matchLit "type".toList l with
    | none => none
    | some r =>
      match matchSpacesWord r with
      | none => none
      | some (w, rest) =>
        if (rest.dropWhile isJsSpace).headD ' ' = '=' then some w else none) line

/-- Capture of the arrow-function regex: `const`, whitespace, a word
capture, an equals sign, an optional `async`, a parenthesised parameter
list (no closing parenthesis inside), then an arrow. -/
def arrowCapture (line : List Char) : Option (List Char) :=
  scanFirst (fun l =>
    match matchLit "const".toList l with
    | none => none
    | some r =>
      match matchSpacesWord r with
      | none => none
      | some (w, rest) =>
        let r1 := rest.dropWhile isJsSpace
        if r1.headD ' ' ≠ '=' then none
        else
          let r2 := (r1.drop 1).dropWhile isJsSpace
          let r3 :=
            if headsWith "async".toList r2 &&
                !((r2.drop 5).takeWhile isJsSpace).isEmpty
            then (r2.drop 5).dropWhile isJsSpace
            else r2
          if r3.headD ' ' ≠ '(' then none
          else
            let body := (r3.drop 1).takeWhile (· ≠ ')')
            let r4 := (r3.drop 1).drop body.length
            if r4.headD ' ' ≠ ')' then none
            else
              let r5 := (r4.drop 1).dropWhile isJsSpace
              if headsWith "=>".toList r5 then some w else none) line

/-- Capture of the upper-case constant regex: `const`, whitespace, a
capture of upper-case letters and underscores, optional whitespace, then
an equals sign. -/
def constCapture (line : List Char) : Option (List Char) :=
  scanFirst (fun l =>
    match matchLit "const".toList l with
    | none => none
    | some r =>
      let sp := r.takeWhile isJsSpace
      if sp.isEmpty then none
      else
        let rest := r.dropWhile isJsSpace
        let w := rest.takeWhile isUpperUnd
        if w.isEmpty then none
        else if ((rest.drop w.length).dropWhile isJsSpace).headD ' ' = '='
        then some w else none) line

/-- The opening curly brace character. -/
def lbraceChar : Char := Char.ofNat 123

/-- The closing curly brace character. -/
def rbraceChar : Char := Char.ofNat 125

/-- Capture of the import regex: `import`, whitespace, then either a
braced name list (one or more non-brace characters) or a single word,
then whitespace and the literal `from`.  Returns the raw imports string
(the braced content or the word). -/
def importCapture (line : List Char) : Option (List Char) :=
  scanFirst (fun l =>
    match matchLit "import".toList l with
    | none => none
    | some r =>
      let sp := r.takeWhile isJsSpace
      if sp.isEmpty then none
      else
        let rest := r.dropWhile isJsSpace
        if rest.headD ' ' = lbraceChar then
          let inner := (rest.drop 1).takeWhile (· ≠ rbraceChar)
          if inner.isEmpty then none
          else
            let r2 := (rest.drop 1).drop inner.length
            if r2.headD ' ' ≠ rbraceChar then none
            else if ((r2.drop 1).takeWhile isJsSpace).isEmpty then none
            else if headsWith "from".toList ((r2.drop 1).dropWhile isJsSpace)
            then some inner else none
        else
          let w := rest.takeWhile isWordChar
          if w.isEmpty then none
          else
            let r2 := rest.drop w.length
            if (r2.takeWhile isJsSpace).isEmpty then none
            else if headsWith "from".toList (r2.dropWhile isJsSpace)
            then some w else none) line

/-- Test that a maximal whitespace run followed by `as` and more
whitespace starts at the current position — the leftmost-match condition
of the name separator regex used on import pieces. -/
def asSeparatorAt (l : List Char) : Bool :=
  isJsSpace (l.headD 'x') &&
  (headsWith "as".toList (l.dropWhile isJsSpace) &&
    !(((l.dropWhile isJsSpace).drop 2).takeWhile isJsSpace).isEmpty)

/-- Everything before the first whitespace-`as`-whitespace separator,
i.e. `imp.split` on that separator, component 0. -/
def takeBeforeAs : List Char → List Char
  | [] => []
  | c :: t => if asSeparatorAt (c :: t) then [] else c :: takeBeforeAs t

/-- Names pushed for one import statement: split the imports string on
commas, trim each piece, drop an as-alias, trim again, keep non-empty. -/
def importedNames (imports : List Char) : List (List Char) :=
  ((splitComma imports).map (fun imp => jsTrim (takeBeforeAs (jsTrim imp)))).filter
    (fun n => !n.isEmpty)

/-- One matcher pass, `CodeContextExtractor.extractSymbolsFromLine`:
apply the fixed, ordered regex set to a cleaned line and emit symbols in
pattern order. -/
def extractSymbolsFromLine (line : List Char) (action : SymAction)
    (file : List Char) : List CodeSymbol :=
  (match funcCapture line with
    | some n => [{ name := n, type := .function, action := action, file := file }]
    | none => []) ++
  (match arrowCapture line with
    | some n => [{ name := n, type := .function, action := action, file := file }]
    | none => []) ++
  (match classCapture line with
    | some n => [{ name := n, type := .class_, action := action, file := file }]
    | none => []) ++
  (match interfaceCapture line with
    | some n => [{ name := n, type := .interface, action := action, file := file }]
    | none => []) ++
  (match typeCapture line with
    | some n => [{ name := n, type := .type_, action := action, file := file }]
    | none => []) ++
  (match importCapture line with
    | some imports => (importedNames imports).map
        (fun n => { name := n, type := .import_, action := action, file := file })
    | none => []) ++
  (match constCapture line with
    | some n => [{ name := n, type := .constant, action := action, file := file }]
    | none => [])

/-- Path captured from a `diff --git` header line by the search for the
first literal `b/` followed by at least one character running to the end
of the line (the lazy capture with an end anchor takes everything after
the first `b/`). -/
def headerPath : List Char → Option (List Char)
  | [] => none
  | 'b' :: '/' :: rest => if rest.isEmpty then none else some rest
  | _ :: t => headerPath t

/-- Header-line test `line.startsWith('diff --git')`. -/
def isHeaderLine (l : List Char) : Bool := headsWith "diff --git".toList l

/-- Line walk of `CodeContextExtractor.extract`: track the current file
from header lines (unchanged when a header fails to parse, `none` until
the first header) and collect symbols from added and deleted lines. -/
def extractScan : List (List Char) → Option (List Char) → List CodeSymbol
  | [], _ => []
  | line :: rest, cur =>
    if isHeaderLine line then
      match headerPath line with
      | some p => extractScan rest (some p)
      | none => extractScan rest cur
    else
      match cur with
      | none => extractScan rest none
      | some file =>
        (if headsWith "+".toList line && !headsWith "+++".toList line then
          extractSymbolsFromLine (jsTrim (line.drop 1)) .added file else []) ++
        (if headsWith "-".toList line && !headsWith "---".toList line then
          extractSymbolsFromLine (jsTrim (line.drop 1)) .deleted file else []) ++
        extractScan rest (some file)

/-- One row step of the Levenshtein dynamic program
(`CodeContextExtractor.levenshteinDistance`): `prev` holds the previous
row from column `j - 1` on, `left` the value just computed in this row. -/
def levRowAux (c : Char) : List Char → List Nat → Nat → List Nat
  | [], _, _ => []
  | y :: ys, prev, left =>
    let diag := prev.headD 0
    let up := (prev.drop 1).headD 0
    let cost := if c = y then 0 else 1
    let cur := min (up + 1) (min (left + 1) (diag + cost))
    cur :: levRowAux c ys (prev.drop 1) cur

/-- Levenshtein distance matrix computation, row by row. -/
def levenshteinDistance (str1 str2 : List Char) : Nat :=
  let row0 := List.range (str2.length + 1)
  let lastRow := str1.enum.foldl
    (fun prev p => (p.1 + 1) :: levRowAux p.2 str2 prev (p.1 + 1)) row0
  lastRow.getLastD 0

/-- Similarity heuristic `CodeContextExtractor.areSimilar`: one
lower-cased name contains the other, or their edit distance is at most 3. -/
def areSimilar (name1 name2 : List Char) : Bool :=
  let lower1 := name1.map jsToLower
  let lower2 := name2.map jsToLower
  containsSub lower1 lower2 || containsSub lower2 lower1 ||
    decide (levenshteinDistance lower1 lower2 ≤ 3)

/-- Pair condition of the rename loops: same type, same file, different
name, similar names.  It reads only fields the loops never mutate, which
is what justifies the purely functional rendering below. -/
def renameCond (del add : CodeSymbol) : Bool :=
  decide (del.type = add.type) && decide (del.file = add.file) &&
  decide (del.name ≠ add.name) && areSimilar del.name add.name

/-- Rename pass `CodeContextExtractor.detectRenames`: an added symbol
with at least one matching deleted symbol becomes `renamed` and records
the last matching deleted symbol's name (later iterations of the outer
loop overwrite `oldName`); a deleted symbol with a matching added symbol
becomes `renamed`. -/
def detectRenames (symbols : List CodeSymbol) : List CodeSymbol :=
  let deleted := symbols.filter (fun s => decide (s.action = .deleted))
  let added := symbols.filter (fun s => decide (s.action = .added))
  symbols.map fun s =>
    if s.action = .added then
      match (deleted.filter (fun d => renameCond d s)).getLast? with
      | some d => { s with action := .renamed, oldName := some d.name }
      | none => s
    else if s.action = .deleted then
      if added.any (fun a => renameCond s a) then { s with action := .renamed }
      else s
    else s

/-- Grouping key of `detectModifications`. -/
def modKey (s : CodeSymbol) : List Char :=
  s.name ++ ':' :: (s.type.str ++ ':' :: s.file)

/-- Modification pass `CodeContextExtractor.detectModifications`: when a
name/type/file group has both an added and a deleted member, every member
not already renamed becomes `modified`. -/
def detectModifications (symbols : List CodeSymbol) : List CodeSymbol :=
  symbols.map fun s =>
    if s.action ≠ .renamed ∧
        (symbols.any fun t =>
          decide (modKey t = modKey s) && decide (t.action = .added)) ∧
        (symbols.any fun t =>
          decide (modKey t = modKey s) && decide (t.action = .deleted)) then
      { s with action := .modified }
    else s

/-- Deduplication key of `CodeSymbol`s. -/
def symKey (s : CodeSymbol) : List Char :=
  s.name ++ ':' :: (s.type.str ++ ':' :: (s.action.str ++ ':' :: s.file))

/-- Seen-set loop of `CodeContextExtractor.deduplicateSymbols`. -/
def dedupAux (seen : List (List Char)) : List CodeSymbol → List CodeSymbol
  | [] => []
  | s :: rest =>
    if symKey s ∈ seen then dedupAux seen rest
    else s :: dedupAux (symKey s :: seen) rest

/-- Deduplication pass `CodeContextExtractor.deduplicateSymbols`: keep
the first symbol for each name/type/action/file key. -/
def deduplicateSymbols (symbols : List CodeSymbol) : List CodeSymbol :=
  dedupAux [] symbols

/-- Joining with a semicolon and a space, JavaScript `parts.join('; ')`. -/
def joinSemiSpace : List (List Char) → List Char
  | [] => []
  | [l] => l
  | l :: l' :: ls => l ++ ';' :: ' ' :: joinSemiSpace (l' :: ls)

/-- Insertion-ordered grouping step backing
`CodeContextExtractor.groupByType` (a Map keyed by symbol type). -/
def insertGrouped (acc : List (SymType × List (List Char))) (t : SymType)
    (n : List Char) : List (SymType × List (List Char)) :=
  match acc with
  | [] => [(t, [n])]
  | (t', ns) :: rest =>
    if t' = t then (t', ns ++ [n]) :: rest else (t', ns) :: insertGrouped rest t n

/-- Grouping `CodeContextExtractor.groupByType`. -/
def groupByType (symbols : List CodeSymbol) : List (SymType × List (List Char)) :=
  symbols.foldl (fun acc s => insertGrouped acc s.type s.name) []

/-- Decimal rendering of a count, as interpolated into the summary. -/
def natToChars (n : Nat) : List Char := (toString n).toList

/-- Formatting `CodeContextExtractor.formatTypeGroup`: one name spelled
out, up to three joined, four or more collapsed into a count. -/
def formatTypeGroup (typeMap : List (SymType × List (List Char))) : List Char :=
  joinCommaSpace (typeMap.map fun p =>
    if p.2.length = 1 then p.1.str ++ ' ' :: p.2.headD []
    else if p.2.length ≤ 3 then p.1.str ++ 's' :: ' ' :: joinCommaSpace p.2
    else natToChars p.2.length ++ ' ' :: (p.1.str ++ ['s']))

/-- Summary prose `CodeContextExtractor.generateSummary`: one clause per
non-empty action bucket, with import symbols excluded from the added and
deleted buckets. -/
def generateSummary (symbols : List CodeSymbol) : List Char :=
  if symbols.isEmpty then "Minor changes".toList
  else
    let addedSyms := symbols.filter fun s =>
      decide (s.action = .added) && decide (s.type ≠ .import_)
    let modifiedSyms := symbols.filter fun s => decide (s.action = .modified)
    let deletedSyms := symbols.filter fun s =>
      decide (s.action = .deleted) && decide (s.type ≠ .import_)
    let renamedSyms := symbols.filter fun s => decide (s.action = .renamed)
    joinSemiSpace
      ((if !addedSyms.isEmpty then
          ["Added ".toList ++ formatTypeGroup (groupByType addedSyms)] else []) ++
       (if !modifiedSyms.isEmpty then
          ["Modified ".toList ++ formatTypeGroup (groupByType modifiedSyms)] else []) ++
       (if !renamedSyms.isEmpty then
          ["Renamed ".toList ++ formatTypeGroup (groupByType renamedSyms)] else []) ++
       (if !deletedSyms.isEmpty then
          ["Deleted ".toList ++ formatTypeGroup (groupByType deletedSyms)] else []))

/-- Extraction pipeline `CodeContextExtractor.extract`: scan the diff
lines, run the rename and modification passes, then return the
deduplicated symbols and a summary generated from the pre-dedup list. -/
def CodeContextExtractor.extract (diff : List Char) : CodeContext :=
  let raw := extractScan (splitNl diff) none
  let renamed := detectRenames raw
  let post := detectModifications renamed
  { symbols := deduplicateSymbols post, summary := generateSummary post }

/-! ## C8: no duplicate symbol tuples after extraction -/

theorem dedupAux_key_pairwise :
    ∀ (syms : List CodeSymbol) (seen : List (List Char)),
      (dedupAux seen syms).Pairwise (fun a b => symKey a ≠ symKey b) ∧
      ∀ s ∈ dedupAux seen syms, symKey s ∉ seen := by
  intro syms
  induction syms with
  | nil => intro seen; exact ⟨List.Pairwise.nil, by simp [dedupAux]⟩
  | cons a rest ih =>
    intro seen
    rw [dedupAux]
    split
    · exact ih seen
    · rename_i hnot
      obtain ⟨hp, hs⟩ := ih (symKey a :: seen)
      refine ⟨List.Pairwise.cons ?_ hp, ?_⟩
      · intro b hb hab
        exact hs b hb (by rw [← hab]; exact List.mem_cons_self _ _)
      · intro s hsmem
        rcases List.mem_cons.mp hsmem with rfl | hmem
        · exact hnot
        · exact fun hin => hs s hmem (List.mem_cons_of_mem _ hin)

theorem symKey_congr {a b : CodeSymbol} (h1 : a.name = b.name)
    (h2 : a.type = b.type) (h3 : a.action = b.action) (h4 : a.file = b.file) :
    symKey a = symKey b := by
  rw [symKey, symKey, h1, h2, h3, h4]

/-- C8 (confirmed): for every diff text, the symbol list returned by
`extract` contains no two symbols with the same
(name, type, action, file) tuple — the final deduplication pass keeps at
most one symbol per joined key, and equal tuples have equal keys. -/
theorem c8_extract_no_duplicate_tuples (diff : String) :
    (CodeContextExtractor.extract diff.toList).symbols.Pairwise
      (fun a b => ¬(a.name = b.name ∧ a.type = b.type ∧
        a.action = b.action ∧ a.file = b.file)) := by
  have h := (dedupAux_key_pairwise
    (detectModifications (detectRenames (extractScan (splitNl diff.toList) none)))
    []).1
  refine List.Pairwise.imp ?_ h
  intro a b hk htuple
  exact hk (symKey_congr htuple.1 htuple.2.1 htuple.2.2.1 htuple.2.2.2)

/-! ## `src/git/diffCollector.ts`: filtering and `filesChanged`

`getStagedDiff` filters the raw staged diff through the ignore patterns
(`filterDiff`), truncates it to the maximum diff size with a marker, and
then counts `filesChanged` as the header lines of the resulting text.
The glob matching of the pattern list (`patterns.some(p => minimatch(...))`,
an external library) is abstracted as a predicate `ign` on paths. -/

/-- Line walk of `DiffCollector.filterDiff`: a header line whose captured
path matches an ignore pattern is suppressed together with every
following line up to the next header; a header line that fails to parse
leaves the skip state unchanged. -/
def filterDiffLines (ign : List Char → Bool) :
    List (List Char) → Bool → List (List Char)
  | [], _ => []
  | line :: ls, skipCurrentFile =>
    if isHeaderLine line then
      match headerPath line with
      | some p =>
        if ign p then filterDiffLines ign ls true
        else line :: filterDiffLines ign ls false
      | none =>
        if skipCurrentFile then filterDiffLines ign ls skipCurrentFile
        else line :: filterDiffLines ign ls skipCurrentFile
    else
      if skipCurrentFile then filterDiffLines ign ls skipCurrentFile
      else line :: filterDiffLines ign ls skipCurrentFile

/-- Filter `DiffCollector.filterDiff` on the diff text. -/
def DiffCollector.filterDiff (ign : List Char → Bool) (diff : List Char) :
    List Char :=
  joinNl (filterDiffLines ign (splitNl diff) false)

/-- The maximum diff size (500 KB) of `DiffCollector`. -/
def maxDiffSize : Nat := 500000

/-- The marker appended when the diff is truncated. -/
def truncationMarker : List Char := "\n... (truncated)".toList

/-- Count of the multiline-anchored header-line matches on a text, the
`diff.match` expression computing `filesChanged`. -/
def countHeaderMatches (s : List Char) : Nat := (splitNl s).countP isHeaderLine

/-- The `filesChanged` computation of `DiffCollector.getStagedDiff`:
filter, truncate when over the size limit, then count header lines. -/
def DiffCollector.filesChanged (ign : List Char → Bool) (diff : List Char) :
    Nat :=
  let filtered := DiffCollector.filterDiff ign diff
  let final :=
    if maxDiffSize < filtered.length then filtered.take maxDiffSize ++ truncationMarker
    else filtered
  countHeaderMatches final

/-- The file paths observed on the parseable header lines of a diff, in
order and with multiplicity. -/
def observedPaths (lines : List (List Char)) : List (List Char) :=
  lines.filterMap fun l => if isHeaderLine l then headerPath l else none

/-! Splitting and joining lemmas. -/

theorem splitNl_ne_nil : ∀ s : List Char, splitNl s ≠ [] := by
  intro s
  cases s with
  | nil => simp [splitNl]
  | cons c rest =>
    rw [splitNl]
    split
    · simp
    · cases h : splitNl rest <;> simp

theorem not_newline_of_mem_splitNl :
    ∀ (s : List Char) (l : List Char), l ∈ splitNl s → '\n' ∉ l := by
  intro s
  induction s with
  | nil =>
    intro l hl
    simp [splitNl] at hl
    simp [hl]
  | cons c rest ih =>
    intro l hl
    rw [splitNl] at hl
    by_cases hc : c = '\n'
    · rw [if_pos hc] at hl
      rcases List.mem_cons.mp hl with rfl | h
      · simp
      · exact ih l h
    · rw [if_neg hc] at hl
      cases hsp : splitNl rest with
      | nil => exact absurd hsp (splitNl_ne_nil rest)
      | cons h t =>
        rw [hsp] at hl
        rcases List.mem_cons.mp hl with rfl | hmem
        · intro hin
          rcases List.mem_cons.mp hin with heq | hin2
          · exact hc heq.symm
          · exact ih h (hsp ▸ List.mem_cons_self h t) hin2
        · exact ih l (hsp ▸ List.mem_cons_of_mem h hmem)

theorem splitNl_of_no_newline {l : List Char} (h : '\n' ∉ l) :
    splitNl l = [l] := by
  induction l with
  | nil => rfl
  | cons c rest ih =>
    simp only [List.mem_cons, not_or] at h
    rw [splitNl, if_neg (fun hc => h.1 hc.symm), ih h.2]

theorem splitNl_append_newline {l : List Char} (r : List Char)
    (h : '\n' ∉ l) : splitNl (l ++ '\n' :: r) = l :: splitNl r := by
  induction l with
  | nil => simp [splitNl]
  | cons c rest ih =>
    simp only [List.mem_cons, not_or] at h
    rw [List.cons_append, splitNl, if_neg (fun hc => h.1 hc.symm), ih h.2]

theorem splitNl_joinNl :
    ∀ ls : List (List Char), ls ≠ [] → (∀ l ∈ ls, '\n' ∉ l) →
      splitNl (joinNl ls) = ls := by
  intro ls
  induction ls with
  | nil => intro h; exact absurd rfl h
  | cons l rest ih =>
    intro _ hnl
    cases rest with
    | nil =>
      rw [joinNl]
      exact splitNl_of_no_newline (hnl l (List.mem_cons_self _ _))
    | cons l2 rest2 =>
      rw [joinNl, splitNl_append_newline _ (hnl l (List.mem_cons_self _ _)),
        ih (by simp) (fun x hx => hnl x (List.mem_cons_of_mem l hx))]

theorem mem_of_mem_filterDiffLines (ign : List Char → Bool) :
    ∀ (ls : List (List Char)) (sk : Bool) (l : List Char),
      l ∈ filterDiffLines ign ls sk → l ∈ ls := by
  intro ls
  induction ls with
  | nil => intro sk l h; simp [filterDiffLines] at h
  | cons a rest ih =>
    intro sk l h
    rw [filterDiffLines] at h
    split at h
    · split at h
      · split at h
        · exact List.mem_cons_of_mem a (ih true l h)
        · rcases List.mem_cons.mp h with rfl | hm
          · exact List.mem_cons_self _ _
          · exact List.mem_cons_of_mem a (ih false l hm)
      · split at h
        · exact List.mem_cons_of_mem a (ih sk l h)
        · rcases List.mem_cons.mp h with rfl | hm
          · exact List.mem_cons_self _ _
          · exact List.mem_cons_of_mem a (ih sk l hm)
    · split at h
      · exact List.mem_cons_of_mem a (ih sk l h)
      · rcases List.mem_cons.mp h with rfl | hm
        · exact List.mem_cons_self _ _
        · exact List.mem_cons_of_mem a (ih sk l hm)

theorem countP_filterDiffLines (ign : List Char → Bool) :
    ∀ (lines : List (List Char)),
      (∀ l ∈ lines, isHeaderLine l = true → (headerPath l).isSome) →
      ∀ sk : Bool,
        (filterDiffLines ign lines sk).countP isHeaderLine =
          ((observedPaths lines).filter (fun p => !ign p)).length := by
  intro lines
  induction lines with
  | nil => intro _ sk; simp [filterDiffLines, observedPaths]
  | cons a rest ih =>
    intro hparse sk
    have hrest := fun l hl => hparse l (List.mem_cons_of_mem a hl)
    rw [filterDiffLines]
    by_cases hh : isHeaderLine a = true
    · cases hp : headerPath a with
      | none =>
        have := hparse a (List.mem_cons_self _ _) hh
        rw [hp] at this
        simp at this
      | some p =>
        rw [if_pos hh]
        dsimp only
        have hobs : observedPaths (a :: rest) = p :: observedPaths rest := by
          simp [observedPaths, List.filterMap_cons, hh, hp]
        by_cases hi : ign p
        · rw [if_pos hi, hobs, List.filter_cons]
          simp only [hi, Bool.not_true, Bool.false_eq_true, if_false]
          exact ih hrest true
        · rw [if_neg hi, hobs, List.filter_cons]
          have hif : (!ign p) = true := by
            cases hx : ign p with
            | true => exact absurd hx hi
            | false => rfl
          rw [hif]
          simp only [if_pos rfl, List.length_cons, List.countP_cons, hh]
          rw [ih hrest false]
          simp
    · have hhf : isHeaderLine a = false := by
        cases hx : isHeaderLine a with
        | true => exact absurd hx hh
        | false => rfl
      rw [if_neg (by rw [hhf]; simp)]
      have hobs : observedPaths (a :: rest) = observedPaths rest := by
        simp [observedPaths, List.filterMap_cons, hhf]
      rw [hobs]
      split
      · exact ih hrest sk
      · rw [List.countP_cons, hhf]
        simpa using ih hrest sk

/-- C9 (counterexample): `filesChanged` counts header lines of the
filtered (and possibly truncated) text, not distinct paths.  On a diff
whose two header lines name the same path `f` (and with no ignore
pattern matching), the count is 2 while only one distinct path is
observed. -/
theorem c9_counterexample :
    DiffCollector.filesChanged (fun _ => false)
        ("diff --git a/x b/f\n+1\ndiff --git a/x b/f").toList = 2 ∧
    ((observedPaths (splitNl ("diff --git a/x b/f\n+1\ndiff --git a/x b/f").toList)).filter
        (fun p => !(fun _ => false) p)).dedup.length = 1 := by
  constructor <;> decide

/-- C9 (amended): `filesChanged` is derived purely from the diff header
lines remaining after ignore filtering and truncation.  Under the
conditions that every header line parses a path, that no two header
lines of the staged diff name the same path, and that the filtered diff
does not exceed the size limit (all true for a real staged diff under
500 KB), it equals the number of distinct file paths observed in the
diff, ignoring files matched by the ignore patterns. -/
theorem c9_filesChanged_spec (diff : String) (ign : List Char → Bool)
    (hparse : ∀ l ∈ splitNl diff.toList, isHeaderLine l = true →
      (headerPath l).isSome)
    (hnodup : (observedPaths (splitNl diff.toList)).Nodup)
    (hsize : (DiffCollector.filterDiff ign diff.toList).length ≤ maxDiffSize) :
    DiffCollector.filesChanged ign diff.toList =
      ((observedPaths (splitNl diff.toList)).filter (fun p => !ign p)).dedup.length := by
  have hout : DiffCollector.filesChanged ign diff.toList =
      countHeaderMatches (DiffCollector.filterDiff ign diff.toList) := by
    rw [DiffCollector.filesChanged]
    rw [if_neg (by omega)]
  rw [hout]
  set out := filterDiffLines ign (splitNl diff.toList) false with hdefout
  have hcount : out.countP isHeaderLine =
      ((observedPaths (splitNl diff.toList)).filter (fun p => !ign p)).length := by
    rw [hdefout]
    exact countP_filterDiffLines ign (splitNl diff.toList) hparse false
  have hnonl : ∀ l' ∈ out, '\n' ∉ l' := fun l' hl' =>
    not_newline_of_mem_splitNl diff.toList l'
      (mem_of_mem_filterDiffLines ign (splitNl diff.toList) false l' hl')
  have hjoin : countHeaderMatches (DiffCollector.filterDiff ign diff.toList) =
      out.countP isHeaderLine := by
    rw [DiffCollector.filterDiff, countHeaderMatches, ← hdefout]
    cases hc : out with
    | nil => simp [joinNl, splitNl, List.countP, List.countP.go, isHeaderLine, headsWith]
    | cons l ls =>
      rw [splitNl_joinNl (l :: ls) (by simp) (fun x hx => hnonl x (by rw [hc]; exact hx))]
  rw [hjoin, hcount, List.dedup_eq_self.mpr (hnodup.filter _)]

/-- C9 (witness): on a two-file staged diff where the lockfile is
ignored, `filesChanged` is 1 and matches the distinct observed
non-ignored path count. -/
theorem c9_witness :
    DiffCollector.filesChanged (fun p => tailsWith ".lock".toList p)
        ("diff --git a/a.ts b/a.ts\n+x\ndiff --git a/b.lock b/b.lock\n+y").toList =
      ((observedPaths (splitNl
        ("diff --git a/a.ts b/a.ts\n+x\ndiff --git a/b.lock b/b.lock\n+y").toList)).filter
          (fun p => !tailsWith ".lock".toList p)).dedup.length ∧
    DiffCollector.filesChanged (fun p => tailsWith ".lock".toList p)
        ("diff --git a/a.ts b/a.ts\n+x\ndiff --git a/b.lock b/b.lock\n+y").toList = 1 :=
  ⟨c9_filesChanged_spec
      "diff --git a/a.ts b/a.ts\n+x\ndiff --git a/b.lock b/b.lock\n+y"
      (fun p => tailsWith ".lock".toList p)
      (by decide) (by decide) (by decide),
    by decide⟩
